import Mathlib

/-!
Shallow embedding of the `MinMaxHeap` class from `src/min_max_heap.cpp`.

The heap state is the backing `std::vector<int>`, modelled as `List Int`.
Reads `data[i]` become `d.getD i 0` (every read performed by the code is
separately shown to be in bounds, see the checked mirror below), writes
become `List.set`, `push_back` is append, `pop_back` is `dropLast`.
C++ `while` loops are modelled as structurally recursive functions on an
explicit fuel argument; each wrapper passes a fuel that provably dominates
the loop's iteration count (the loop index strictly decreases for the
bubble-up loops and strictly increases but stays below `d.length` for the
trickle-down loops), so the fuel never runs out on the executions the
wrapper performs.
-/

namespace MinMaxHeap

/-- `parent` from the source: `(index - 1) / 2` (every call site has `index ≥ 1`,
so Nat truncated subtraction agrees with the C++ `size_t` arithmetic there). -/
def parent (index : Nat) : Nat := (index - 1) / 2

/-- `grandparent` from the source. -/
def grandparent (index : Nat) : Nat := parent (parent index)

/-- Loop body of `isMinLevel`: count parent steps until reaching the root.
Fuel-indexed; `parent i < i` for `i ≥ 1`, so fuel `i` suffices. -/
def depthAux : Nat → Nat → Nat
  | 0, _ => 0
  | fuel + 1, i => if i = 0 then 0 else depthAux fuel (parent i) + 1

/-- The depth of index `i`: the number of parent-steps from `i` to 0. -/
def depth (i : Nat) : Nat := depthAux i i

/-- `isMinLevel` from the source: even depth. -/
def isMinLevel (i : Nat) : Bool := depth i % 2 == 0

/-- `std::swap(data[i], data[j])`. -/
def swap (d : List Int) (i j : Nat) : List Int :=
  let vi := d.getD i 0
  let vj := d.getD j 0
  (d.set i vj).set j vi

/-- Loop body of `bubbleUpMin`. The loop index strictly decreases
(`grandparent index < index` when `index ≥ 3`), so fuel `index` suffices. -/
def bubbleUpMinAux : Nat → List Int → Nat → List Int
  | 0, d, _ => d
  | fuel + 1, d, index =>
    if 3 ≤ index then
      let gp := grandparent index
      if d.getD index 0 < d.getD gp 0 then
        bubbleUpMinAux fuel (swap d index gp) gp
      else d
    else d

/-- `bubbleUpMin` from the source. -/
def bubbleUpMin (d : List Int) (index : Nat) : List Int :=
  bubbleUpMinAux index d index

/-- Loop body of `bubbleUpMax`, symmetric to `bubbleUpMinAux`. -/
def bubbleUpMaxAux : Nat → List Int → Nat → List Int
  | 0, d, _ => d
  | fuel + 1, d, index =>
    if 3 ≤ index then
      let gp := grandparent index
      if d.getD gp 0 < d.getD index 0 then
        bubbleUpMaxAux fuel (swap d index gp) gp
      else d
    else d

/-- `bubbleUpMax` from the source. -/
def bubbleUpMax (d : List Int) (index : Nat) : List Int :=
  bubbleUpMaxAux index d index

/-- `bubbleUp` from the source. -/
def bubbleUp (d : List Int) (index : Nat) : List Int :=
  if index = 0 then d
  else
    let p := parent index
    if isMinLevel index then
      if d.getD p 0 < d.getD index 0 then bubbleUpMax (swap d index p) p
      else bubbleUpMin d index
    else
      if d.getD index 0 < d.getD p 0 then bubbleUpMin (swap d index p) p
      else bubbleUpMax d index

/-- `insert` from the source: append, then bubble up from the last slot. -/
def insert (d : List Int) (value : Int) : List Int :=
  let d1 := d ++ [value]
  bubbleUp d1 (d1.length - 1)

/-- `getMin` from the source; the thrown `std::out_of_range` becomes `none`. -/
def getMin (d : List Int) : Option Int :=
  if d.length = 0 then none else some (d.getD 0 0)

/-- `getMax` from the source; the thrown `std::out_of_range` becomes `none`. -/
def getMax (d : List Int) : Option Int :=
  if d.length = 0 then none
  else if d.length = 1 then some (d.getD 0 0)
  else if d.length = 2 then some (d.getD 1 0)
  else some (max (d.getD 1 0) (d.getD 2 0))

/-- The scan loop of `minDescendant`: walk `count` indices starting at `i`,
keeping the index of the smallest value seen (`minIdx`). -/
def scanMinIdx (d : List Int) : Nat → Nat → Nat → Nat
  | _, minIdx, 0 => minIdx
  | i, minIdx, count + 1 =>
    scanMinIdx d (i + 1) (if d.getD i 0 < d.getD minIdx 0 then i else minIdx) count

/-- `minDescendant` from the source: scan the contiguous index range
`firstChild .. min (d.length - 1) (2 * firstChild + 2)`. -/
def minDescendant (d : List Int) (index : Nat) : Nat :=
  let firstChild := 2 * index + 1
  if d.length ≤ firstChild then index
  else
    let lastDescendant := min (d.length - 1) (2 * firstChild + 2)
    scanMinIdx d firstChild firstChild (lastDescendant + 1 - firstChild)

/-- The scan loop of `maxDescendant`, symmetric to `scanMinIdx`. -/
def scanMaxIdx (d : List Int) : Nat → Nat → Nat → Nat
  | _, maxIdx, 0 => maxIdx
  | i, maxIdx, count + 1 =>
    scanMaxIdx d (i + 1) (if d.getD maxIdx 0 < d.getD i 0 then i else maxIdx) count

/-- `maxDescendant` from the source. -/
def maxDescendant (d : List Int) (index : Nat) : Nat :=
  let firstChild := 2 * index + 1
  if d.length ≤ firstChild then index
  else
    let lastDescendant := min (d.length - 1) (2 * firstChild + 2)
    scanMaxIdx d firstChild firstChild (lastDescendant + 1 - firstChild)

/-- `isGrandchild` from the source. -/
def isGrandchild (d : List Int) (index descendant : Nat) : Bool :=
  if descendant = index then false
  else
    let childStart := 2 * index + 1
    let childEnd := 2 * index + 2
    if d.length ≤ descendant then false
    else if descendant = childStart || descendant = childEnd then false
    else parent descendant = childStart || parent descendant = childEnd

/-- Loop body of `trickleDownMin`. The loop index strictly increases
(`minDescendant d index ≥ 2 * index + 1` when it differs from `index`) and
stays below `d.length`, so fuel `d.length` suffices; swaps preserve length. -/
def trickleDownMinAux : Nat → List Int → Nat → List Int
  | 0, d, _ => d
  | fuel + 1, d, index =>
    let m := minDescendant d index
    if m = index then d
    else if isGrandchild d index m then
      if d.getD m 0 < d.getD index 0 then
        let d1 := swap d m index
        let parentIdx := parent m
        let d2 :=
          if d1.getD parentIdx 0 < d1.getD m 0 then swap d1 m parentIdx else d1
        trickleDownMinAux fuel d2 m
      else d
    else
      if d.getD m 0 < d.getD index 0 then swap d m index else d

/-- `trickleDownMin` from the source. -/
def trickleDownMin (d : List Int) (index : Nat) : List Int :=
  trickleDownMinAux d.length d index

/-- Loop body of `trickleDownMax`, symmetric to `trickleDownMinAux`. -/
def trickleDownMaxAux : Nat → List Int → Nat → List Int
  | 0, d, _ => d
  | fuel + 1, d, index =>
    let m := maxDescendant d index
    if m = index then d
    else if isGrandchild d index m then
      if d.getD index 0 < d.getD m 0 then
        let d1 := swap d m index
        let parentIdx := parent m
        let d2 :=
          if d1.getD m 0 < d1.getD parentIdx 0 then swap d1 m parentIdx else d1
        trickleDownMaxAux fuel d2 m
      else d
    else
      if d.getD index 0 < d.getD m 0 then swap d m index else d

/-- `trickleDownMax` from the source. -/
def trickleDownMax (d : List Int) (index : Nat) : List Int :=
  trickleDownMaxAux d.length d index

/-- `trickleDown` from the source: dispatch on the level of `index`. -/
def trickleDown (d : List Int) (index : Nat) : List Int :=
  if isMinLevel index then trickleDownMin d index else trickleDownMax d index

/-- `extractMin` from the source. Returns the extracted value (`none` models
the empty-heap `std::out_of_range`) together with the new heap state. -/
def extractMin (d : List Int) : Option Int × List Int :=
  if d.length = 0 then (none, d)
  else
    let minValue := d.getD 0 0
    let d1 := d.set 0 (d.getD (d.length - 1) 0)
    let d2 := d1.dropLast
    let d3 := if d2.length = 0 then d2 else trickleDown d2 0
    (some minValue, d3)

/-- `extractMax` from the source. -/
def extractMax (d : List Int) : Option Int × List Int :=
  if d.length = 0 then (none, d)
  else if d.length = 1 then (some (d.getD 0 0), d.dropLast)
  else
    let maxIndex := if 2 < d.length ∧ d.getD 1 0 < d.getD 2 0 then 2 else 1
    let maxValue := d.getD maxIndex 0
    let d1 := d.set maxIndex (d.getD (d.length - 1) 0)
    let d2 := d1.dropLast
    let d3 := if maxIndex < d2.length then trickleDown d2 maxIndex else d2
    (some maxValue, d3)

/-- `empty` from the source. -/
def empty (d : List Int) : Bool := d.length == 0

/-- `size`. Modelled from the spec: the interface table of §6 lists a `size`
operation returning the non-negative element count, which the class in
`src/min_max_heap.cpp` does not implement; per the spec it is the number of
currently-held elements. -/
def size (d : List Int) : Nat := d.length

/-- A public mutating operation of the heap. -/
inductive Op where
  | insert (value : Int)
  | extractMin
  | extractMax
deriving DecidableEq, Repr

/-- Run one public operation on a heap state (extractions keep only the
resulting state; the returned value is dropped). -/
def step (d : List Int) : Op → List Int
  | Op.insert v => insert d v
  | Op.extractMin => (extractMin d).2
  | Op.extractMax => (extractMax d).2

/-- Run a sequence of public operations starting from the empty heap. -/
def runOps (ops : List Op) : List Int := ops.foldl step []

/-- `true` when every extraction in the sequence is performed on a non-empty
heap, starting from state `d`. -/
def validOpsFrom (d : List Int) : List Op → Bool
  | [] => true
  | op :: rest =>
    (match op with
     | Op.insert _ => true
     | _ => !(d.length == 0)) && validOpsFrom (step d op) rest

/-- Number of `insert` operations in a sequence. -/
def countInserts : List Op → Nat
  | [] => 0
  | Op.insert _ :: rest => countInserts rest + 1
  | _ :: rest => countInserts rest

/-- Number of extraction operations in a sequence. -/
def countExtracts : List Op → Nat
  | [] => 0
  | Op.insert _ :: rest => countExtracts rest
  | _ :: rest => countExtracts rest + 1

/-- Fuel-indexed test that `j` is a proper descendant of `i` in the implicit
complete-tree index structure (follow parent links from `j`); fuel `j`
suffices since `parent j < j` for `j ≥ 1`. -/
def isDescendantAux : Nat → Nat → Nat → Bool
  | 0, _, _ => false
  | fuel + 1, j, i =>
    if j = 0 then false
    else if parent j = i then true
    else isDescendantAux fuel (parent j) i

/-- `j` is a proper descendant of `i` in the complete binary tree. -/
def isDescendant (j i : Nat) : Bool := isDescendantAux j j i

/-- The min-max heap property of the spec (§3): every min-level index is ≤
all its descendants and every max-level index is ≥ all its descendants. -/
def heapProperty (d : List Int) : Prop :=
  ∀ i, i < d.length → ∀ j, j < d.length → isDescendant j i = true →
    if isMinLevel i then d.getD i 0 ≤ d.getD j 0 else d.getD j 0 ≤ d.getD i 0

/-- Values obtained by repeatedly calling `extractMin` until the heap is
empty (fuel `d.length` suffices: each successful extraction shrinks the
state by one element). -/
def drainMinAux : Nat → List Int → List Int
  | 0, _ => []
  | fuel + 1, d =>
    if d.length = 0 then []
    else
      match extractMin d with
      | (some v, d2) => v :: drainMinAux fuel d2
      | (none, _) => []

/-- Repeatedly extract the minimum until empty. -/
def drainMin (d : List Int) : List Int := drainMinAux d.length d

/-- Values obtained by repeatedly calling `extractMax` until empty. -/
def drainMaxAux : Nat → List Int → List Int
  | 0, _ => []
  | fuel + 1, d =>
    if d.length = 0 then []
    else
      match extractMax d with
      | (some v, d2) => v :: drainMaxAux fuel d2
      | (none, _) => []

/-- Repeatedly extract the maximum until empty. -/
def drainMax (d : List Int) : List Int := drainMaxAux d.length d

/-- The candidate window named by the spec for `trickleDown` at `i`: the
children `2i+1, 2i+2` and the four grandchildren `4i+3 .. 4i+6`, bounded by
the current size. -/
def specWindow (d : List Int) (i : Nat) : List Nat :=
  [2 * i + 1, 2 * i + 2, 4 * i + 3, 4 * i + 4, 4 * i + 5, 4 * i + 6].filter
    (fun j => j < d.length)

/-- The insertion sequence 0, 2, 1, 3, 4, 5, 6 used as a concrete
counterexample run; it produces the valid min-max heap `[0, 4, 6, 2, 3, 1, 5]`. -/
def exInserts : List Op :=
  [Op.insert 0, Op.insert 2, Op.insert 1, Op.insert 3,
   Op.insert 4, Op.insert 5, Op.insert 6]

/-- The counterexample run: seven inserts followed by one `extractMin`. -/
def exSeq : List Op := exInserts ++ [Op.extractMin]

/-- The heap reached by the seven counterexample inserts. -/
def exHeap : List Int := runOps exInserts

/-- The intermediate state formed inside `extractMin exHeap` right before its
`trickleDown(0)` call: the root is overwritten with the last element and the
array is shrunk by one. -/
def exPre : List Int := (exHeap.set 0 (exHeap.getD (exHeap.length - 1) 0)).dropLast

/-- A small valid operation sequence used to instantiate the size-balance
theorem on concrete data. -/
def wOps : List Op :=
  [Op.insert 5, Op.insert 3, Op.extractMin, Op.extractMax]

/-- `bubbleUp`, written from the spec's own wording (§4.1, steps 1-4): stop at
the root; if the value violates the parent's own level rule (for a min-level
parent, being smaller than it; for a max-level parent, being larger), swap
with the parent and continue along the opposite-rule chain from the parent;
otherwise climb the same-rule chain of the node itself. -/
def bubbleUpSpec (d : List Int) (index : Nat) : List Int :=
  if index = 0 then d
  else
    let p := parent index
    let violatesParentRule : Bool :=
      if isMinLevel p then decide (d.getD index 0 < d.getD p 0)
      else decide (d.getD p 0 < d.getD index 0)
    if violatesParentRule then
      if isMinLevel p then bubbleUpMin (swap d index p) p
      else bubbleUpMax (swap d index p) p
    else
      if isMinLevel index then bubbleUpMin d index
      else bubbleUpMax d index

/-- `extractMax`, written from the spec's own wording (§4.1): empty fails;
size 1 pops and returns the sole element; otherwise the max-holding index
among {1, 2} is selected (index 2 wins only if it exists and its value
strictly exceeds index 1's), that slot is overwritten with the last element,
the array shrinks by one, and if the slot is still a valid index the
max-level variant of trickle-down repairs from it. -/
def extractMaxSpec (d : List Int) : Option Int × List Int :=
  if d.length = 0 then (none, d)
  else if d.length = 1 then (some (d.getD 0 0), d.dropLast)
  else
    let maxIndex := if 2 < d.length ∧ d.getD 1 0 < d.getD 2 0 then 2 else 1
    let maxValue := d.getD maxIndex 0
    let d1 := d.set maxIndex (d.getD (d.length - 1) 0)
    let d2 := d1.dropLast
    let d3 := if maxIndex < d2.length then trickleDownMax d2 maxIndex else d2
    (some maxValue, d3)

/-!
Checked mirror of the same code. Every `data[i]` read and write goes through
bounds-checked access returning `none` on an out-of-bounds index (which in
the C++ original would be undefined behaviour). Each definition below is the
same translation of the source as above, with the checked accesses threaded
through `Option`.
-/

/-- Bounds-checked read `data[i]`. -/
def getE (d : List Int) (i : Nat) : Option Int := d.get? i

/-- Bounds-checked write `data[i] = v`. -/
def setE (d : List Int) (i : Nat) (v : Int) : Option (List Int) :=
  if i < d.length then some (d.set i v) else none

/-- Checked `std::swap(data[i], data[j])`. -/
def swapChk (d : List Int) (i j : Nat) : Option (List Int) :=
  (getE d i).bind fun vi =>
  (getE d j).bind fun vj =>
  (setE d i vj).bind fun d1 =>
  setE d1 j vi

/-- Checked mirror of `bubbleUpMinAux`. -/
def bubbleUpMinChkAux : Nat → List Int → Nat → Option (List Int)
  | 0, d, _ => some d
  | fuel + 1, d, index =>
    if 3 ≤ index then
      let gp := grandparent index
      (getE d index).bind fun vi =>
      (getE d gp).bind fun vg =>
      if vi < vg then
        (swapChk d index gp).bind fun d1 =>
        bubbleUpMinChkAux fuel d1 gp
      else some d
    else some d

/-- Checked mirror of `bubbleUpMin`. -/
def bubbleUpMinChk (d : List Int) (index : Nat) : Option (List Int) :=
  bubbleUpMinChkAux index d index

/-- Checked mirror of `bubbleUpMaxAux`. -/
def bubbleUpMaxChkAux : Nat → List Int → Nat → Option (List Int)
  | 0, d, _ => some d
  | fuel + 1, d, index =>
    if 3 ≤ index then
      let gp := grandparent index
      (getE d index).bind fun vi =>
      (getE d gp).bind fun vg =>
      if vg < vi then
        (swapChk d index gp).bind fun d1 =>
        bubbleUpMaxChkAux fuel d1 gp
      else some d
    else some d

/-- Checked mirror of `bubbleUpMax`. -/
def bubbleUpMaxChk (d : List Int) (index : Nat) : Option (List Int) :=
  bubbleUpMaxChkAux index d index

/-- Checked mirror of `bubbleUp`. -/
def bubbleUpChk (d : List Int) (index : Nat) : Option (List Int) :=
  if index = 0 then some d
  else
    let p := parent index
    (getE d index).bind fun vi =>
    (getE d p).bind fun vp =>
    if isMinLevel index then
      if vp < vi then (swapChk d index p).bind fun d1 => bubbleUpMaxChk d1 p
      else bubbleUpMinChk d index
    else
      if vi < vp then (swapChk d index p).bind fun d1 => bubbleUpMinChk d1 p
      else bubbleUpMaxChk d index

/-- Checked mirror of `insert`. -/
def insertChk (d : List Int) (value : Int) : Option (List Int) :=
  let d1 := d ++ [value]
  bubbleUpChk d1 (d1.length - 1)

/-- Checked mirror of `getMin` (outer `none` = out-of-bounds access, inner
`none` = the empty-heap error). -/
def getMinChk (d : List Int) : Option (Option Int) :=
  if d.length = 0 then some none
  else (getE d 0).bind fun v => some (some v)

/-- Checked mirror of `getMax`. -/
def getMaxChk (d : List Int) : Option (Option Int) :=
  if d.length = 0 then some none
  else if d.length = 1 then (getE d 0).bind fun v => some (some v)
  else if d.length = 2 then (getE d 1).bind fun v => some (some v)
  else
    (getE d 1).bind fun v1 =>
    (getE d 2).bind fun v2 =>
    some (some (max v1 v2))

/-- Checked mirror of `scanMinIdx`. -/
def scanMinIdxChk (d : List Int) : Nat → Nat → Nat → Option Nat
  | _, minIdx, 0 => some minIdx
  | i, minIdx, count + 1 =>
    (getE d i).bind fun vi =>
    (getE d minIdx).bind fun vm =>
    scanMinIdxChk d (i + 1) (if vi < vm then i else minIdx) count

/-- Checked mirror of `minDescendant`. -/
def minDescendantChk (d : List Int) (index : Nat) : Option Nat :=
  let firstChild := 2 * index + 1
  if d.length ≤ firstChild then some index
  else
    let lastDescendant := min (d.length - 1) (2 * firstChild + 2)
    scanMinIdxChk d firstChild firstChild (lastDescendant + 1 - firstChild)

/-- Checked mirror of `scanMaxIdx`. -/
def scanMaxIdxChk (d : List Int) : Nat → Nat → Nat → Option Nat
  | _, maxIdx, 0 => some maxIdx
  | i, maxIdx, count + 1 =>
    (getE d i).bind fun vi =>
    (getE d maxIdx).bind fun vm =>
    scanMaxIdxChk d (i + 1) (if vm < vi then i else maxIdx) count

/-- Checked mirror of `maxDescendant`. -/
def maxDescendantChk (d : List Int) (index : Nat) : Option Nat :=
  let firstChild := 2 * index + 1
  if d.length ≤ firstChild then some index
  else
    let lastDescendant := min (d.length - 1) (2 * firstChild + 2)
    scanMaxIdxChk d firstChild firstChild (lastDescendant + 1 - firstChild)

/-- Checked mirror of `trickleDownMinAux` (`isGrandchild` reads no data, only
the size, so it is reused as is). -/
def trickleDownMinChkAux : Nat → List Int → Nat → Option (List Int)
  | 0, d, _ => some d
  | fuel + 1, d, index =>
    (minDescendantChk d index).bind fun m =>
    if m = index then some d
    else if isGrandchild d index m then
      (getE d m).bind fun vm =>
      (getE d index).bind fun vi =>
      if vm < vi then
        (swapChk d m index).bind fun d1 =>
        let parentIdx := parent m
        (getE d1 m).bind fun wm =>
        (getE d1 parentIdx).bind fun wp =>
        (if wp < wm then swapChk d1 m parentIdx else some d1).bind fun d2 =>
        trickleDownMinChkAux fuel d2 m
      else some d
    else
      (getE d m).bind fun vm =>
      (getE d index).bind fun vi =>
      if vm < vi then swapChk d m index else some d

/-- Checked mirror of `trickleDownMin`. -/
def trickleDownMinChk (d : List Int) (index : Nat) : Option (List Int) :=
  trickleDownMinChkAux d.length d index

/-- Checked mirror of `trickleDownMaxAux`. -/
def trickleDownMaxChkAux : Nat → List Int → Nat → Option (List Int)
  | 0, d, _ => some d
  | fuel + 1, d, index =>
    (maxDescendantChk d index).bind fun m =>
    if m = index then some d
    else if isGrandchild d index m then
      (getE d m).bind fun vm =>
      (getE d index).bind fun vi =>
      if vi < vm then
        (swapChk d m index).bind fun d1 =>
        let parentIdx := parent m
        (getE d1 m).bind fun wm =>
        (getE d1 parentIdx).bind fun wp =>
        (if wm < wp then swapChk d1 m parentIdx else some d1).bind fun d2 =>
        trickleDownMaxChkAux fuel d2 m
      else some d
    else
      (getE d m).bind fun vm =>
      (getE d index).bind fun vi =>
      if vi < vm then swapChk d m index else some d

/-- Checked mirror of `trickleDownMax`. -/
def trickleDownMaxChk (d : List Int) (index : Nat) : Option (List Int) :=
  trickleDownMaxChkAux d.length d index

/-- Checked mirror of `trickleDown`. -/
def trickleDownChk (d : List Int) (index : Nat) : Option (List Int) :=
  if isMinLevel index then trickleDownMinChk d index else trickleDownMaxChk d index

/-- Checked mirror of `extractMin`. -/
def extractMinChk (d : List Int) : Option (Option Int × List Int) :=
  if d.length = 0 then some (none, d)
  else
    (getE d 0).bind fun minValue =>
    (getE d (d.length - 1)).bind fun back =>
    (setE d 0 back).bind fun d1 =>
    let d2 := d1.dropLast
    (if d2.length = 0 then some d2 else trickleDownChk d2 0).bind fun d3 =>
    some (some minValue, d3)

/-- Checked mirror of `extractMax`. -/
def extractMaxChk (d : List Int) : Option (Option Int × List Int) :=
  if d.length = 0 then some (none, d)
  else if d.length = 1 then (getE d 0).bind fun v => some (some v, d.dropLast)
  else
    (if 2 < d.length then
      (getE d 1).bind fun v1 =>
      (getE d 2).bind fun v2 =>
      some (if v1 < v2 then 2 else 1)
     else some 1).bind fun maxIndex =>
    (getE d maxIndex).bind fun maxValue =>
    (getE d (d.length - 1)).bind fun back =>
    (setE d maxIndex back).bind fun d1 =>
    let d2 := d1.dropLast
    (if maxIndex < d2.length then trickleDownChk d2 maxIndex else some d2).bind fun d3 =>
    some (some maxValue, d3)

/-!
Theorems.
-/

/-- C1: the claimed invariant — after every sequence of insert/extractMin/
extractMax operations from the empty heap, every min-level index is ≤ and
every max-level index is ≥ all its descendants — fails on the code: after
inserting 0, 2, 1, 3, 4, 5, 6 and one `extractMin`, the resulting state
`[2, 5, 6, 4, 3, 1]` has the min-level root 2 above its descendant 1, because
`minDescendant` scans only the contiguous range `2i+1 .. 4i+4` and misses the
grandchild at index 5 during the repair. -/
theorem heap_property_violated_after_extractMin : ¬ heapProperty (runOps exSeq) := by
  unfold heapProperty
  decide

/-- C2: the extremal candidate chosen by the repair's descendant scan is not
always the extremum over the children-and-grandchildren window
`2i+1, 2i+2, 4i+3 .. 4i+6`: in the `trickleDown(0)` call performed by
`extractMin` on the reachable heap `[0, 4, 6, 2, 3, 1, 5]`, the scanned state
is `exPre = [5, 4, 6, 2, 3, 1]` and `minDescendant` returns index 3
(value 2) although the grandchild index 5 = 4·0+5 exists and holds the
strictly smaller value 1. -/
theorem minDescendant_misses_grandchild :
    minDescendant exPre 0 = 3 ∧ 5 < exPre.length ∧ exPre.getD 5 0 < exPre.getD 3 0 := by
  decide

/-- C3: `getMin` does not always return the minimum of the held values: after
inserting 0, 2, 1, 3, 4, 5, 6 and one `extractMin`, `getMin` returns 2 while
the value 1 is still held. -/
theorem getMin_not_minimum_after_extractMin :
    getMin (runOps exSeq) = some 2 ∧ (1 : Int) ∈ runOps exSeq := by
  decide

/-- C4: draining the reachable heap `[0, 4, 6, 2, 3, 1, 5]` by repeated
`extractMin` yields `[0, 2, 1, 3, 4, 5, 6]`, which is not non-decreasing
(2 precedes 1), refuting the claimed sorted-drain property. -/
theorem drainMin_not_sorted :
    drainMin exHeap = [0, 2, 1, 3, 4, 5, 6] ∧
      ¬ List.Sorted (· ≤ ·) (drainMin exHeap) := by
  refine ⟨by decide, ?_⟩
  decide

theorem length_swap (d : List Int) (i j : Nat) : (swap d i j).length = d.length := by
  simp [swap]

theorem depthAux_irrel : ∀ (f1 f2 i : Nat), i ≤ f1 → i ≤ f2 → depthAux f1 i = depthAux f2 i := by
  intro f1
  induction f1 with
  | zero =>
    intro f2 i h1 _
    interval_cases i
    cases f2 <;> simp [depthAux]
  | succ f ih =>
    intro f2 i h1 h2
    cases i with
    | zero => cases f2 <;> simp [depthAux]
    | succ k =>
      cases f2 with
      | zero => omega
      | succ f2' =>
        have hp : parent (k + 1) ≤ k := by unfold parent; omega
        simp only [depthAux, if_neg (Nat.succ_ne_zero k)]
        rw [ih f2' (parent (k + 1)) (by omega) (by omega)]

theorem depth_succ (i : Nat) (h : i ≠ 0) : depth i = depth (parent i) + 1 := by
  cases i with
  | zero => exact absurd rfl h
  | succ k =>
    show depthAux (k + 1) (k + 1) = _
    simp only [depthAux, if_neg (Nat.succ_ne_zero k)]
    rw [depthAux_irrel k (parent (k + 1)) (parent (k + 1)) (by unfold parent; omega) le_rfl]
    rfl

theorem isMinLevel_parent (i : Nat) (h : i ≠ 0) : isMinLevel (parent i) = !(isMinLevel i) := by
  unfold isMinLevel
  rw [depth_succ i h]
  rcases Nat.mod_two_eq_zero_or_one (depth (parent i)) with h2 | h2 <;>
    simp [Nat.add_mod, h2]

theorem parent_two_mul_add_one (i : Nat) : parent (2 * i + 1) = i := by
  unfold parent; omega

theorem parent_two_mul_add_two (i : Nat) : parent (2 * i + 2) = i := by
  unfold parent; omega

theorem depth_log2 : ∀ i : Nat, depth i = Nat.log2 (i + 1) := by
  intro i
  induction i using Nat.strong_induction_on with
  | _ i ih =>
    cases i with
    | zero =>
      rw [Nat.log2]
      rfl
    | succ k =>
      rw [depth_succ (k + 1) (Nat.succ_ne_zero k), ih (parent (k + 1)) (by unfold parent; omega)]
      conv_rhs => rw [Nat.log2]
      have h2 : 2 ≤ k + 1 + 1 := by omega
      rw [if_pos h2]
      have : parent (k + 1) + 1 = (k + 1 + 1) / 2 := by unfold parent; omega
      rw [this]

theorem length_bubbleUpMinAux : ∀ (fuel : Nat) (d : List Int) (index : Nat),
    (bubbleUpMinAux fuel d index).length = d.length := by
  intro fuel
  induction fuel with
  | zero => intro d index; rfl
  | succ f ih =>
    intro d index
    simp only [bubbleUpMinAux]
    split
    · split
      · rw [ih, length_swap]
      · rfl
    · rfl

theorem length_bubbleUpMaxAux : ∀ (fuel : Nat) (d : List Int) (index : Nat),
    (bubbleUpMaxAux fuel d index).length = d.length := by
  intro fuel
  induction fuel with
  | zero => intro d index; rfl
  | succ f ih =>
    intro d index
    simp only [bubbleUpMaxAux]
    split
    · split
      · rw [ih, length_swap]
      · rfl
    · rfl

theorem length_bubbleUp (d : List Int) (index : Nat) :
    (bubbleUp d index).length = d.length := by
  unfold bubbleUp
  split
  · rfl
  · dsimp only
    split <;> split <;>
      simp [bubbleUpMin, bubbleUpMax, length_bubbleUpMinAux, length_bubbleUpMaxAux, length_swap]

theorem length_insert (d : List Int) (v : Int) : (insert d v).length = d.length + 1 := by
  unfold insert
  rw [length_bubbleUp]
  simp

theorem length_trickleDownMinAux : ∀ (fuel : Nat) (d : List Int) (index : Nat),
    (trickleDownMinAux fuel d index).length = d.length := by
  intro fuel
  induction fuel with
  | zero => intro d index; rfl
  | succ f ih =>
    intro d index
    simp only [trickleDownMinAux]
    split
    · rfl
    · split
      · split
        · rw [ih]
          split <;> simp [length_swap]
        · rfl
      · split <;> simp [length_swap]

theorem length_trickleDownMaxAux : ∀ (fuel : Nat) (d : List Int) (index : Nat),
    (trickleDownMaxAux fuel d index).length = d.length := by
  intro fuel
  induction fuel with
  | zero => intro d index; rfl
  | succ f ih =>
    intro d index
    simp only [trickleDownMaxAux]
    split
    · rfl
    · split
      · split
        · rw [ih]
          split <;> simp [length_swap]
        · rfl
      · split <;> simp [length_swap]

theorem length_trickleDown (d : List Int) (index : Nat) :
    (trickleDown d index).length = d.length := by
  unfold trickleDown
  split <;>
    simp [trickleDownMin, trickleDownMax, length_trickleDownMinAux, length_trickleDownMaxAux]

theorem length_extractMin (d : List Int) (h : d.length ≠ 0) :
    (extractMin d).2.length = d.length - 1 := by
  unfold extractMin
  rw [if_neg h]
  dsimp only
  split <;> simp [length_trickleDown, List.length_dropLast]

theorem length_extractMax (d : List Int) (h : d.length ≠ 0) :
    (extractMax d).2.length = d.length - 1 := by
  unfold extractMax
  rw [if_neg h]
  split
  · simp [List.length_dropLast]
  · dsimp only
    split <;> split <;> simp [length_trickleDown, List.length_dropLast]

theorem foldl_step_length : ∀ (ops : List Op) (d : List Int),
    validOpsFrom d ops = true →
    (ops.foldl step d).length + countExtracts ops = d.length + countInserts ops := by
  intro ops
  induction ops with
  | nil => intro d _; simp [countInserts, countExtracts]
  | cons op rest ih =>
    intro d h
    cases op with
    | insert v =>
      simp only [validOpsFrom, Bool.true_and, Bool.and_eq_true] at h
      have hrec := ih (step d (Op.insert v)) h
      simp only [countInserts, countExtracts, List.foldl_cons]
      have hl : (step d (Op.insert v)).length = d.length + 1 := length_insert d v
      omega
    | extractMin =>
      simp only [validOpsFrom, Bool.and_eq_true] at h
      have hd : d.length ≠ 0 := by
        intro h0
        simp [h0] at h
      have hrec := ih (step d Op.extractMin) h.2
      simp only [countInserts, countExtracts, List.foldl_cons]
      have hl : (step d Op.extractMin).length = d.length - 1 := length_extractMin d hd
      omega
    | extractMax =>
      simp only [validOpsFrom, Bool.and_eq_true] at h
      have hd : d.length ≠ 0 := by
        intro h0
        simp [h0] at h
      have hrec := ih (step d Op.extractMax) h.2
      simp only [countInserts, countExtracts, List.foldl_cons]
      have hl : (step d Op.extractMax).length = d.length - 1 := length_extractMax d hd
      omega

/-- C8: starting from the empty heap, any valid interleaving of inserts and
extractions (no extraction on an empty heap) leaves `size` equal to the
number of inserts minus the number of extractions; each insert grows the
state by exactly one element and each successful extraction shrinks it by
exactly one. -/
theorem size_after_ops :
    ∀ (ops : List Op) (d : List Int) (v : Int),
    validOpsFrom [] ops = true → d.length ≠ 0 →
    size (runOps ops) = countInserts ops - countExtracts ops ∧
    countExtracts ops ≤ countInserts ops ∧
    size (insert d v) = size d + 1 ∧
    size (extractMin d).2 = size d - 1 ∧
    size (extractMax d).2 = size d - 1 := by
  intro ops d v hops hd
  have hbal := foldl_step_length ops [] hops
  simp only [List.length_nil, Nat.zero_add] at hbal
  refine ⟨?_, ?_, length_insert d v, length_extractMin d hd, length_extractMax d hd⟩
  · unfold runOps size
    omega
  · omega

/-- C9: both repair loops terminate within the tree height: every
trickle-down step moves the repaired node to a grandchild, whose depth is
exactly two greater, every bubble-up step moves it to the grandparent, whose
depth is exactly two smaller (the loop runs only for indices ≥ 3, which have
a grandparent), and the depth of any index of an `n`-element heap is at most
`log2 n`. -/
theorem repair_steps_change_depth :
    ∀ (d : List Int) (i m j n k : Nat),
    isGrandchild d i m = true → 3 ≤ j → k < n →
    depth m = depth i + 2 ∧ depth (grandparent j) + 2 = depth j ∧
    depth k ≤ Nat.log2 n := by
  intro d i m j n k hg hj hk
  refine ⟨?_, ?_, ?_⟩
  · have h1 : parent m = 2 * i + 1 ∨ parent m = 2 * i + 2 := by
      unfold isGrandchild at hg
      dsimp only at hg
      split_ifs at hg with a1 a2 a3
      all_goals simpa using hg
    have hm0 : m ≠ 0 := by
      intro h0
      rw [h0] at h1
      unfold parent at h1
      omega
    rcases h1 with h1 | h1
    · rw [depth_succ m hm0, h1, depth_succ (2 * i + 1) (by omega), parent_two_mul_add_one]
    · rw [depth_succ m hm0, h1, depth_succ (2 * i + 2) (by omega), parent_two_mul_add_two]
  · have hpj : parent j ≠ 0 := by
      unfold parent
      omega
    rw [depth_succ j (by omega), depth_succ (parent j) hpj]
    rfl
  · rw [depth_log2, Nat.log2_eq_log_two, Nat.log2_eq_log_two]
    exact Nat.log_mono_right (by omega)

/-- C6: the code's `bubbleUp` agrees with the spec's description on every
state and index: a violation of the parent's own level rule causes a swap
followed by the opposite-rule grandparent chain from the parent, and
otherwise the same-rule grandparent chain climbs from the node itself,
stopping at a satisfied comparison or at the top. -/
theorem bubbleUp_eq_bubbleUpSpec :
    ∀ (d : List Int) (index : Nat), bubbleUp d index = bubbleUpSpec d index := by
  intro d i
  unfold bubbleUp bubbleUpSpec
  by_cases h : i = 0
  · simp [h]
  · have hp := isMinLevel_parent i h
    rw [if_neg h, if_neg h]
    dsimp only
    cases hmi : isMinLevel i with
    | true =>
      rw [hmi] at hp
      simp only [Bool.not_true] at hp
      simp [hp, hmi]
    | false =>
      rw [hmi] at hp
      simp only [Bool.not_false] at hp
      simp [hp, hmi]

/-- C7: the code's `extractMax` agrees on every state with the spec's
description: empty fails; size 1 pops the sole element; otherwise the
max-holding index among {1, 2} is selected (2 wins only if it exists and
strictly exceeds index 1), that slot is overwritten with the last element,
the array shrinks by one, and the max-level trickle-down runs from the slot
exactly when it is still a valid index, returning the captured value. -/
theorem extractMax_eq_extractMaxSpec :
    ∀ d : List Int, extractMax d = extractMaxSpec d := by
  intro d
  unfold extractMax extractMaxSpec trickleDown
  split
  · rfl
  · split
    · rfl
    · dsimp only
      split
      · simp [show isMinLevel 2 = false from rfl]
      · simp [show isMinLevel 1 = false from rfl]

theorem get?_some : ∀ (d : List Int) (i : Nat), i < d.length → d.get? i = some (d.getD i 0) := by
  intro d
  induction d with
  | nil => intro i h; simp at h
  | cons a t ih =>
    intro i h
    cases i with
    | zero => simp
    | succ k =>
      simp only [List.get?_cons_succ, List.getD_cons_succ]
      exact ih k (by simpa using h)

theorem swapChk_some (d : List Int) (i j : Nat) (hi : i < d.length) (hj : j < d.length) :
    swapChk d i j = some (swap d i j) := by
  unfold swapChk swap getE setE
  rw [get?_some d i hi, get?_some d j hj]
  simp [Option.bind, hi, hj]

theorem scanMinIdxChk_some : ∀ (count : Nat) (d : List Int) (i minIdx : Nat),
    i + count ≤ d.length → minIdx < d.length →
    scanMinIdxChk d i minIdx count = some (scanMinIdx d i minIdx count) := by
  intro count
  induction count with
  | zero => intro d i minIdx _ _; rfl
  | succ c ih =>
    intro d i minIdx hi hm
    have hil : i < d.length := by omega
    unfold scanMinIdxChk scanMinIdx getE
    rw [get?_some d i hil, get?_some d minIdx hm]
    simp only [Option.bind]
    exact ih d (i + 1) _ (by omega) (by split <;> omega)

theorem scanMaxIdxChk_some : ∀ (count : Nat) (d : List Int) (i maxIdx : Nat),
    i + count ≤ d.length → maxIdx < d.length →
    scanMaxIdxChk d i maxIdx count = some (scanMaxIdx d i maxIdx count) := by
  intro count
  induction count with
  | zero => intro d i maxIdx _ _; rfl
  | succ c ih =>
    intro d i maxIdx hi hm
    have hil : i < d.length := by omega
    unfold scanMaxIdxChk scanMaxIdx getE
    rw [get?_some d i hil, get?_some d maxIdx hm]
    simp only [Option.bind]
    exact ih d (i + 1) _ (by omega) (by split <;> omega)

theorem minDescendantChk_some (d : List Int) (index : Nat) :
    minDescendantChk d index = some (minDescendant d index) := by
  unfold minDescendantChk minDescendant
  dsimp only
  split
  · rfl
  · rename_i hfc
    apply scanMinIdxChk_some
    · omega
    · omega

theorem maxDescendantChk_some (d : List Int) (index : Nat) :
    maxDescendantChk d index = some (maxDescendant d index) := by
  unfold maxDescendantChk maxDescendant
  dsimp only
  split
  · rfl
  · rename_i hfc
    apply scanMaxIdxChk_some
    · omega
    · omega

theorem scanMinIdx_range : ∀ (count : Nat) (d : List Int) (i cur : Nat),
    scanMinIdx d i cur count = cur ∨
      (i ≤ scanMinIdx d i cur count ∧ scanMinIdx d i cur count < i + count) := by
  intro count
  induction count with
  | zero => intro d i cur; exact Or.inl rfl
  | succ c ih =>
    intro d i cur
    unfold scanMinIdx
    rcases ih d (i + 1) (if d.getD i 0 < d.getD cur 0 then i else cur) with h | h
    · rw [h]
      split
      · right
        omega
      · left
        rfl
    · right
      omega

theorem scanMaxIdx_range : ∀ (count : Nat) (d : List Int) (i cur : Nat),
    scanMaxIdx d i cur count = cur ∨
      (i ≤ scanMaxIdx d i cur count ∧ scanMaxIdx d i cur count < i + count) := by
  intro count
  induction count with
  | zero => intro d i cur; exact Or.inl rfl
  | succ c ih =>
    intro d i cur
    unfold scanMaxIdx
    rcases ih d (i + 1) (if d.getD cur 0 < d.getD i 0 then i else cur) with h | h
    · rw [h]
      split
      · right
        omega
      · left
        rfl
    · right
      omega

theorem minDescendant_bounds (d : List Int) (index : Nat) (h : 2 * index + 1 < d.length) :
    2 * index + 1 ≤ minDescendant d index ∧ minDescendant d index < d.length := by
  unfold minDescendant
  dsimp only
  rw [if_neg (by omega)]
  rcases scanMinIdx_range ((d.length - 1) ⊓ (2 * (2 * index + 1) + 2) + 1 - (2 * index + 1))
      d (2 * index + 1) (2 * index + 1) with hr | hr
  · rw [hr]
    omega
  · constructor
    · omega
    · have : (d.length - 1) ⊓ (2 * (2 * index + 1) + 2) + 1 ≤ d.length := by omega
      omega

theorem maxDescendant_bounds (d : List Int) (index : Nat) (h : 2 * index + 1 < d.length) :
    2 * index + 1 ≤ maxDescendant d index ∧ maxDescendant d index < d.length := by
  unfold maxDescendant
  dsimp only
  rw [if_neg (by omega)]
  rcases scanMaxIdx_range ((d.length - 1) ⊓ (2 * (2 * index + 1) + 2) + 1 - (2 * index + 1))
      d (2 * index + 1) (2 * index + 1) with hr | hr
  · rw [hr]
    omega
  · constructor
    · omega
    · have : (d.length - 1) ⊓ (2 * (2 * index + 1) + 2) + 1 ≤ d.length := by omega
      omega

theorem minDescendant_self (d : List Int) (index : Nat) (h : d.length ≤ 2 * index + 1) :
    minDescendant d index = index := by
  unfold minDescendant
  dsimp only
  rw [if_pos h]

theorem maxDescendant_self (d : List Int) (index : Nat) (h : d.length ≤ 2 * index + 1) :
    maxDescendant d index = index := by
  unfold maxDescendant
  dsimp only
  rw [if_pos h]

theorem bubbleUpMinChkAux_some : ∀ (fuel : Nat) (d : List Int) (index : Nat),
    index < d.length →
    bubbleUpMinChkAux fuel d index = some (bubbleUpMinAux fuel d index) := by
  intro fuel
  induction fuel with
  | zero => intro d index _; rfl
  | succ f ih =>
    intro d index h
    unfold bubbleUpMinChkAux bubbleUpMinAux
    split
    · rename_i h3
      have hgp : grandparent index < index := by
        unfold grandparent parent
        omega
      dsimp only
      rw [getE, get?_some d index h, getE, get?_some d (grandparent index) (by omega)]
      simp only [Option.bind]
      split
      · rw [swapChk_some d index (grandparent index) h (by omega)]
        simp only [Option.bind]
        exact ih (swap d index (grandparent index)) (grandparent index)
          (by rw [length_swap]; omega)
      · rfl
    · rfl

theorem bubbleUpMaxChkAux_some : ∀ (fuel : Nat) (d : List Int) (index : Nat),
    index < d.length →
    bubbleUpMaxChkAux fuel d index = some (bubbleUpMaxAux fuel d index) := by
  intro fuel
  induction fuel with
  | zero => intro d index _; rfl
  | succ f ih =>
    intro d index h
    unfold bubbleUpMaxChkAux bubbleUpMaxAux
    split
    · rename_i h3
      have hgp : grandparent index < index := by
        unfold grandparent parent
        omega
      dsimp only
      rw [getE, get?_some d index h, getE, get?_some d (grandparent index) (by omega)]
      simp only [Option.bind]
      split
      · rw [swapChk_some d index (grandparent index) h (by omega)]
        simp only [Option.bind]
        exact ih (swap d index (grandparent index)) (grandparent index)
          (by rw [length_swap]; omega)
      · rfl
    · rfl

theorem bubbleUpChk_some (d : List Int) (index : Nat) (h : index < d.length) :
    bubbleUpChk d index = some (bubbleUp d index) := by
  unfold bubbleUpChk bubbleUp
  split
  · rfl
  · rename_i h0
    have hp : parent index < index := by
      unfold parent
      omega
    dsimp only
    rw [getE, get?_some d index h, getE, get?_some d (parent index) (by omega)]
    simp only [Option.bind]
    split
    · split
      · rw [swapChk_some d index (parent index) h (by omega)]
        simp only [Option.bind]
        exact bubbleUpMaxChkAux_some (parent index) _ (parent index)
          (by rw [length_swap]; omega)
      · exact bubbleUpMinChkAux_some index d index h
    · split
      · rw [swapChk_some d index (parent index) h (by omega)]
        simp only [Option.bind]
        exact bubbleUpMinChkAux_some (parent index) _ (parent index)
          (by rw [length_swap]; omega)
      · exact bubbleUpMaxChkAux_some index d index h

theorem insertChk_some (d : List Int) (v : Int) : insertChk d v = some (insert d v) := by
  unfold insertChk insert
  apply bubbleUpChk_some
  simp

theorem getMinChk_some (d : List Int) : getMinChk d = some (getMin d) := by
  unfold getMinChk getMin
  split
  · rfl
  · rename_i h
    rw [getE, get?_some d 0 (by omega)]
    rfl

theorem getMaxChk_some (d : List Int) : getMaxChk d = some (getMax d) := by
  unfold getMaxChk getMax
  split
  · rfl
  · rename_i h0
    split
    · rename_i h1
      rw [getE, get?_some d 0 (by omega)]
      rfl
    · rename_i h1
      split
      · rename_i h2
        rw [getE, get?_some d 1 (by omega)]
        rfl
      · rename_i h2
        rw [getE, get?_some d 1 (by omega), getE, get?_some d 2 (by omega)]
        rfl

theorem trickleDownMinChkAux_some : ∀ (fuel : Nat) (d : List Int) (index : Nat),
    index < d.length →
    trickleDownMinChkAux fuel d index = some (trickleDownMinAux fuel d index) := by
  intro fuel
  induction fuel with
  | zero => intro d index _; rfl
  | succ f ih =>
    intro d index h
    unfold trickleDownMinChkAux trickleDownMinAux
    rw [minDescendantChk_some d index]
    simp only [Option.bind]
    split
    · rfl
    · rename_i hm
      have hmb : 2 * index + 1 ≤ minDescendant d index ∧ minDescendant d index < d.length := by
        apply minDescendant_bounds
        by_contra hc
        exact hm (minDescendant_self d index (by omega))
      rw [getE, get?_some d (minDescendant d index) hmb.2, getE, get?_some d index h]
      simp only [Option.bind]
      split
      · split
        · rw [swapChk_some d (minDescendant d index) index hmb.2 h]
          simp only [Option.bind]
          have hl1 : (swap d (minDescendant d index) index).length = d.length := length_swap d _ _
          have hpm : parent (minDescendant d index) < minDescendant d index := by
            unfold parent
            omega
          rw [getE, get?_some _ (minDescendant d index) (by omega),
            getE, get?_some _ (parent (minDescendant d index)) (by omega)]
          simp only [Option.bind]
          by_cases hc : (swap d (minDescendant d index) index).getD
                (parent (minDescendant d index)) 0 <
              (swap d (minDescendant d index) index).getD (minDescendant d index) 0
          · rw [if_pos hc, if_pos hc, swapChk_some _ (minDescendant d index)
              (parent (minDescendant d index)) (by omega) (by omega)]
            simp only [Option.bind]
            apply ih
            rw [length_swap, length_swap]
            omega
          · rw [if_neg hc, if_neg hc]
            simp only [Option.bind]
            apply ih
            rw [length_swap]
            omega
        · rfl
      · split
        · exact (swapChk_some d (minDescendant d index) index hmb.2 h)
        · rfl

theorem trickleDownMaxChkAux_some : ∀ (fuel : Nat) (d : List Int) (index : Nat),
    index < d.length →
    trickleDownMaxChkAux fuel d index = some (trickleDownMaxAux fuel d index) := by
  intro fuel
  induction fuel with
  | zero => intro d index _; rfl
  | succ f ih =>
    intro d index h
    unfold trickleDownMaxChkAux trickleDownMaxAux
    rw [maxDescendantChk_some d index]
    simp only [Option.bind]
    split
    · rfl
    · rename_i hm
      have hmb : 2 * index + 1 ≤ maxDescendant d index ∧ maxDescendant d index < d.length := by
        apply maxDescendant_bounds
        by_contra hc
        exact hm (maxDescendant_self d index (by omega))
      rw [getE, get?_some d (maxDescendant d index) hmb.2, getE, get?_some d index h]
      simp only [Option.bind]
      split
      · split
        · rw [swapChk_some d (maxDescendant d index) index hmb.2 h]
          simp only [Option.bind]
          have hl1 : (swap d (maxDescendant d index) index).length = d.length := length_swap d _ _
          have hpm : parent (maxDescendant d index) < maxDescendant d index := by
            unfold parent
            omega
          rw [getE, get?_some _ (maxDescendant d index) (by omega),
            getE, get?_some _ (parent (maxDescendant d index)) (by omega)]
          simp only [Option.bind]
          by_cases hc : (swap d (maxDescendant d index) index).getD (maxDescendant d index) 0 <
              (swap d (maxDescendant d index) index).getD (parent (maxDescendant d index)) 0
          · rw [if_pos hc, if_pos hc, swapChk_some _ (maxDescendant d index)
              (parent (maxDescendant d index)) (by omega) (by omega)]
            simp only [Option.bind]
            apply ih
            rw [length_swap, length_swap]
            omega
          · rw [if_neg hc, if_neg hc]
            simp only [Option.bind]
            apply ih
            rw [length_swap]
            omega
        · rfl
      · split
        · exact (swapChk_some d (maxDescendant d index) index hmb.2 h)
        · rfl

theorem trickleDownChk_some (d : List Int) (index : Nat) (h : index < d.length) :
    trickleDownChk d index = some (trickleDown d index) := by
  unfold trickleDownChk trickleDown
  split
  · exact trickleDownMinChkAux_some d.length d index h
  · exact trickleDownMaxChkAux_some d.length d index h

theorem extractMinChk_some (d : List Int) : extractMinChk d = some (extractMin d) := by
  unfold extractMinChk extractMin
  split
  · rfl
  · rename_i h0
    rw [getE, get?_some d 0 (by omega), getE, get?_some d (d.length - 1) (by omega)]
    simp only [Option.bind]
    rw [setE, if_pos (by omega)]
    simp only [Option.bind]
    by_cases h2 : (d.set 0 (d.getD (d.length - 1) 0)).dropLast.length = 0
    · rw [if_pos h2, if_pos h2]
    · rw [if_neg h2, if_neg h2, trickleDownChk_some _ 0 (Nat.pos_of_ne_zero h2)]

theorem extractMaxChk_some (d : List Int) : extractMaxChk d = some (extractMax d) := by
  unfold extractMaxChk extractMax
  split
  · rfl
  · rename_i h0
    split
    · rename_i h1
      rw [getE, get?_some d 0 (by omega)]
      rfl
    · rename_i h1
      dsimp only
      by_cases h2 : 2 < d.length
      · rw [if_pos h2, getE, get?_some d 1 (by omega), getE, get?_some d 2 (by omega)]
        simp only [Option.bind]
        by_cases h3 : d.getD 1 0 < d.getD 2 0
        · rw [if_pos h3, if_pos (show 2 < d.length ∧ d.getD 1 0 < d.getD 2 0 from ⟨h2, h3⟩)]
          rw [getE, get?_some d 2 (by omega), getE, get?_some d (d.length - 1) (by omega)]
          simp only [Option.bind]
          rw [setE, if_pos (by omega)]
          simp only [Option.bind]
          by_cases h4 : 2 < (d.set 2 (d.getD (d.length - 1) 0)).dropLast.length
          · rw [if_pos h4, if_pos h4, trickleDownChk_some _ 2 h4]
          · rw [if_neg h4, if_neg h4]
        · rw [if_neg h3, if_neg (show ¬(2 < d.length ∧ d.getD 1 0 < d.getD 2 0) from by tauto)]
          rw [getE, get?_some d 1 (by omega), getE, get?_some d (d.length - 1) (by omega)]
          simp only [Option.bind]
          rw [setE, if_pos (by omega)]
          simp only [Option.bind]
          by_cases h4 : 1 < (d.set 1 (d.getD (d.length - 1) 0)).dropLast.length
          · rw [if_pos h4, if_pos h4, trickleDownChk_some _ 1 h4]
          · rw [if_neg h4, if_neg h4]
      · rw [if_neg h2]
        simp only [Option.bind]
        rw [if_neg (show ¬(2 < d.length ∧ d.getD 1 0 < d.getD 2 0) from by tauto)]
        rw [getE, get?_some d 1 (by omega), getE, get?_some d (d.length - 1) (by omega)]
        simp only [Option.bind]
        rw [setE, if_pos (by omega)]
        simp only [Option.bind]
        by_cases h4 : 1 < (d.set 1 (d.getD (d.length - 1) 0)).dropLast.length
        · rw [if_pos h4, if_pos h4, trickleDownChk_some _ 1 h4]
        · rw [if_neg h4, if_neg h4]

/-- C5: `getMin`, `getMax`, `extractMin` and `extractMax` signal the
empty-heap error exactly when the size is 0; a failing extraction returns
the state unchanged (the empty state is the only failing one); and `insert`
never fails: its checked-access run always produces a result. -/
theorem empty_error_iff_empty_state :
    ∀ (d : List Int) (v : Int),
    ((getMin d).isNone ↔ d.length = 0) ∧
    ((getMax d).isNone ↔ d.length = 0) ∧
    ((extractMin d).1.isNone ↔ d.length = 0) ∧
    ((extractMax d).1.isNone ↔ d.length = 0) ∧
    extractMin ([] : List Int) = (none, []) ∧
    extractMax ([] : List Int) = (none, []) ∧
    (insertChk d v).isSome := by
  intro d v
  refine ⟨?_, ?_, ?_, ?_, rfl, rfl, ?_⟩
  · unfold getMin
    split <;> simp_all
  · unfold getMax
    split_ifs <;> simp_all
  · unfold extractMin
    split <;> simp_all
  · unfold extractMax
    split_ifs <;> simp_all
  · rw [insertChk_some]
    rfl

/-- C10: no public operation ever reads or writes outside the element
sequence: for every state, the bounds-checked mirror of each operation
succeeds and computes exactly the unchecked result (`empty` touches no
elements at all). -/
theorem ops_access_within_bounds :
    ∀ (d : List Int) (v : Int),
    insertChk d v = some (insert d v) ∧
    getMinChk d = some (getMin d) ∧
    getMaxChk d = some (getMax d) ∧
    extractMinChk d = some (extractMin d) ∧
    extractMaxChk d = some (extractMax d) :=
  fun d v =>
    ⟨insertChk_some d v, getMinChk_some d, getMaxChk_some d,
     extractMinChk_some d, extractMaxChk_some d⟩

theorem repair_steps_change_depth_witness :
    isGrandchild [0, 0, 0, 0] 0 3 = true ∧ 3 ≤ 3 ∧ 3 < 5 ∧
    (depth 3 = depth 0 + 2 ∧ depth (grandparent 3) + 2 = depth 3 ∧
      depth 3 ≤ Nat.log2 5) :=
  ⟨by decide, by decide, by decide,
   repair_steps_change_depth [0, 0, 0, 0] 0 3 3 5 3 (by decide) (by decide) (by decide)⟩

theorem size_after_ops_witness :
    validOpsFrom [] wOps = true ∧ ([3] : List Int).length ≠ 0 ∧
    (size (runOps wOps) = countInserts wOps - countExtracts wOps ∧
     countExtracts wOps ≤ countInserts wOps ∧
     size (insert [3] 7) = size [3] + 1 ∧
     size (extractMin [3]).2 = size [3] - 1 ∧
     size (extractMax [3]).2 = size [3] - 1) :=
  ⟨by decide, by decide, size_after_ops wOps [3] 7 (by decide) (by decide)⟩

end MinMaxHeap
